import Mathlib

/-!
Verification development for the gesture-to-event pipeline of the
SILENT_ORCHSTRA repository.

The relevant source is embedded shallowly:
- `src/utils/handsGestures.ts` (TwoHandGestureDetector): kinematics
  estimation per hand (wrist) and per fingertip.
- `src/unnamed/part_004`: the instrument gesture handlers
  (DrumGestureHandler, PianoGestureHandler, GuitarGestureHandler,
  ThereminGestureHandler).
- `src/components/Stage.tsx` (`processHand`): the per-hand stage pipeline
  with its tuning configuration table.

Numbers are modelled by ℚ (JavaScript numbers enter only through order
comparisons, +, -, *, /, min/max, abs and Math.floor here, which ℚ models
exactly on the decimal literals involved). Wall-clock timestamps
(performance.now() / Date.now()) are passed in explicitly as ℚ values.
Mutable fields of the TypeScript classes become explicit state records
threaded through the step functions; a trace of frames is a list folded
over the step function.
-/

namespace Orchestra

/-! ### Data model (src/utils/handsGestures.ts) -/

/-- Vector3D from handsGestures.ts. -/
structure Vector3D where
  x : ℚ
  y : ℚ
  z : ℚ
deriving DecidableEq

/-- The zero vector `{ x: 0, y: 0, z: 0 }`. -/
def Vector3D.zero : Vector3D := ⟨0, 0, 0⟩

/-- FingerState from handsGestures.ts. -/
structure FingerState where
  extended : Bool
  tip : Vector3D
  velocity : Vector3D
deriving DecidableEq

/-- MediaPipe handedness label. -/
inductive Handedness
  | Left
  | Right
deriving DecidableEq

/-- The lowercase hand-side tags used as identifiers by the handlers. -/
inductive Side
  | left
  | right
deriving DecidableEq

/-- `hand.handedness === 'Left' ? 'left' : 'right'`. -/
def Handedness.side : Handedness → Side
  | .Left => .left
  | .Right => .right

/-- The five finger names. -/
inductive Finger
  | thumb
  | index
  | middle
  | ring
  | pinky
deriving DecidableEq

/-- The `fingers` record of HandData. -/
structure Fingers where
  thumb : FingerState
  index : FingerState
  middle : FingerState
  ring : FingerState
  pinky : FingerState
deriving DecidableEq

/-- HandData from handsGestures.ts. The raw landmark arrays and the
hand-level velocity/acceleration fields are omitted because none of the
instrument handlers embedded below read them; handlers read only
`handedness` and `fingers`. -/
structure HandData where
  handedness : Handedness
  fingers : Fingers
deriving DecidableEq

/-- TwoHandGestureData from handsGestures.ts. -/
structure TwoHandGestureData where
  leftHand : Option HandData
  rightHand : Option HandData
  timestamp : ℚ
deriving DecidableEq

/-! ### Kinematics estimator (TwoHandGestureDetector)

Landmarks are modelled as a total function `Fin 21 → Vector3D` (MediaPipe
always delivers 21 landmarks per detected hand). The `tip.z || 0` guard of
the source is the identity on numbers, so `z` is used directly. -/

/-- Tip landmark index per finger (the `tipIndices` table of
getFingerState: THUMB_TIP 4, INDEX_FINGER_TIP 8, MIDDLE_FINGER_TIP 12,
RING_FINGER_TIP 16, PINKY_TIP 20). -/
def tipIndex : Finger → Fin 21
  | .thumb => 4
  | .index => 8
  | .middle => 12
  | .ring => 16
  | .pinky => 20

/-- Joint index table per finger (the `fingerJoints` table of
getFingerState), as (MCP, PIP, DIP, TIP) landmark indices. -/
def fingerJoints : Finger → Fin 21 × Fin 21 × Fin 21 × Fin 21
  | .thumb => (1, 2, 3, 4)
  | .index => (5, 6, 7, 8)
  | .middle => (9, 10, 11, 12)
  | .ring => (13, 14, 15, 16)
  | .pinky => (17, 18, 19, 20)

/-- One entry of `previousFingerTips[side][finger]`. -/
structure PrevFingerTip where
  x : ℚ
  y : ℚ
  z : ℚ
  timestamp : ℚ
deriving DecidableEq

/-- TwoHandGestureDetector.getFingerState. Inputs are the finger name, the
current landmark list, the cached `previousFingerTips[side][finger]` entry
for this hand side and finger (`none` when absent) and the current clock
value `now`. Returns the FingerState and the new cache entry (the source
always overwrites the cache entry with the current tip and `now`).
Velocity is computed only when `dt > 0 && dt < 0.5` (dt in seconds);
otherwise it stays zero. -/
def getFingerState (finger : Finger) (landmarks : Fin 21 → Vector3D)
    (prevData : Option PrevFingerTip) (now : ℚ) : FingerState × PrevFingerTip :=
  let tip := landmarks (tipIndex finger)
  let velocity : Vector3D :=
    match prevData with
    | none => Vector3D.zero
    | some prev =>
      let dt := (now - prev.timestamp) / 1000
      if 0 < dt ∧ dt < 0.5 then
        ⟨(tip.x - prev.x) / dt, (tip.y - prev.y) / dt, (tip.z - prev.z) / dt⟩
      else Vector3D.zero
  let newPrev : PrevFingerTip := ⟨tip.x, tip.y, tip.z, now⟩
  let joints := fingerJoints finger
  let mcp := landmarks joints.1
  let pip := landmarks joints.2.2.1
  let extended : Bool :=
    match finger with
    | .thumb =>
      let wrist := landmarks 0
      decide (|tip.x - wrist.x| > |mcp.x - wrist.x|)
    | _ => decide (tip.y < pip.y ∧ pip.y < mcp.y)
  (⟨extended, ⟨tip.x, tip.y, tip.z⟩, velocity⟩, newPrev)

/-- The `previousLeftHand` / `previousRightHand` cache entry
(PreviousHandData in handsGestures.ts). -/
structure PreviousHandData where
  landmarks : Fin 21 → Vector3D
  velocity : Vector3D
  timestamp : ℚ

/-- TwoHandGestureDetector.calculateVelocity for one hand side. Input is
the current landmark list, the cached PreviousHandData for this side and
the current clock value `now` (the source reads performance.now() twice in
the same call; both reads are modelled by the single value `now`). Returns
the wrist velocity and the updated cache. On the first frame the cache is
seeded and the velocity is zero; when `dt === 0` the previous velocity is
returned and the cache is left unchanged; otherwise the velocity is the
wrist displacement divided by dt — note that, unlike getFingerState, there
is no upper staleness bound on dt. -/
def calculateVelocity (landmarks : Fin 21 → Vector3D)
    (previousHand : Option PreviousHandData) (now : ℚ) :
    Vector3D × PreviousHandData :=
  match previousHand with
  | none => (Vector3D.zero, ⟨landmarks, Vector3D.zero, now⟩)
  | some prev =>
    let currentWrist := landmarks 0
    let prevWrist := prev.landmarks 0
    let dt := (now - prev.timestamp) / 1000
    if dt = 0 then (prev.velocity, prev)
    else
      let velocity : Vector3D :=
        ⟨(currentWrist.x - prevWrist.x) / dt,
         (currentWrist.y - prevWrist.y) / dt,
         (currentWrist.z - prevWrist.z) / dt⟩
      (velocity, ⟨landmarks, velocity, now⟩)

/-! ### Drum gesture handler (src/unnamed/part_004, DrumGestureHandler) -/

/-- The five drum zones. -/
inductive DrumType
  | hihat
  | snare
  | kick
  | tom
  | crash
deriving DecidableEq

/-- DrumHitEvent (the nested position record is flattened to posX/posY). -/
structure DrumHitEvent where
  drumType : DrumType
  velocity : ℚ
  timestamp : ℚ
  hand : Side
  posX : ℚ
  posY : ℚ
deriving DecidableEq

/-- The mutable `lastHitTime = { left: 0, right: 0 }` of DrumGestureHandler. -/
structure DrumState where
  lastHitLeft : ℚ
  lastHitRight : ℚ
deriving DecidableEq

/-- Initial drum handler state. -/
def DrumState.init : DrumState := ⟨0, 0⟩

/-- Read `lastHitTime[side]`. -/
def DrumState.lastHit (s : DrumState) : Side → ℚ
  | .left => s.lastHitLeft
  | .right => s.lastHitRight

/-- Write `lastHitTime[side] = t`. -/
def DrumState.setLastHit (s : DrumState) : Side → ℚ → DrumState
  | .left, t => { s with lastHitLeft := t }
  | .right, t => { s with lastHitRight := t }

/-- HIT_COOLDOWN = 80 ms. -/
def HIT_COOLDOWN : ℚ := 80

/-- VELOCITY_THRESHOLD = 2.0 (minimum downward velocity for a hit). -/
def VELOCITY_THRESHOLD : ℚ := 2.0

/-- DrumGestureHandler.getDrumType: map x position to the drum kit layout. -/
def getDrumType (xPosition : ℚ) : DrumType :=
  if xPosition < 0.2 then .hihat
  else if xPosition < 0.4 then .snare
  else if xPosition < 0.6 then .kick
  else if xPosition < 0.8 then .tom
  else .crash

/-- The body of the `forEach` over `[data.leftHand, data.rightHand]` in
DrumGestureHandler.process, for one hand slot: cooldown check on the side
named by the handedness label, then the index-finger strike test; on a hit
the side last-hit time is set to `now` and an event is appended. -/
def drumProcessHand (now : ℚ) (acc : DrumState × List DrumHitEvent) :
    Option HandData → DrumState × List DrumHitEvent
  | none => acc
  | some hand =>
    let handSide := hand.handedness.side
    if now - acc.1.lastHit handSide < HIT_COOLDOWN then acc
    else
      let indexFinger := hand.fingers.index
      let fingerVelocity := indexFinger.velocity.y
      if fingerVelocity > VELOCITY_THRESHOLD then
        let indexTip := indexFinger.tip
        (acc.1.setLastHit handSide now,
         acc.2 ++ [⟨getDrumType indexTip.x, min 1.0 (fingerVelocity / 5.0),
                    now, handSide, indexTip.x, indexTip.y⟩])
      else acc

/-- DrumGestureHandler.process: fold the per-slot body over the two hand
slots; `now` is the performance.now() value of this call. Returns the new
handler state and the events of this call. -/
def drumProcess (s : DrumState) (data : TwoHandGestureData) (now : ℚ) :
    DrumState × List DrumHitEvent :=
  [data.leftHand, data.rightHand].foldl (drumProcessHand now) (s, [])

/-- A trace of process calls: each frame is a pair (now, data); events of
all calls are concatenated in order. -/
def drumRun (s : DrumState) (frames : List (ℚ × TwoHandGestureData)) :
    DrumState × List DrumHitEvent :=
  frames.foldl
    (fun acc f =>
      let r := drumProcess acc.1 f.2 f.1
      (r.1, acc.2 ++ r.2))
    (s, [])

/-! ### Piano gesture handler (src/unnamed/part_004, PianoGestureHandler)

The source keys its `activeKeys` set by the string
`hand + "-" + fingerName + "-" + keyIndex` and parses the three components
back out of the string for release events. The hand and finger names
contain no dash, so the string encodes the triple injectively; the key is
therefore modelled directly as the triple. -/

/-- The components encoded in a piano `keyId` string. -/
structure KeyId where
  hand : Side
  finger : Finger
  keyIndex : ℤ
deriving DecidableEq

/-- Piano event kind. -/
inductive PianoEventType
  | press
  | release
deriving DecidableEq

/-- PianoKeyEvent. -/
structure PianoKeyEvent where
  type : PianoEventType
  keyId : KeyId
  keyIndex : ℤ
  velocity : ℚ
  hand : Side
  finger : Finger
  timestamp : ℚ
deriving DecidableEq

/-- TAP_VELOCITY_THRESHOLD = 0.8. -/
def TAP_VELOCITY_THRESHOLD : ℚ := 0.8

/-- PianoGestureHandler.getKeyIndex: floor of x mapped over 12 keys,
clamped to 0..11. The `hand` parameter is accepted but, exactly as in the
source body, never used. -/
def getKeyIndex (xPosition : ℚ) (_hand : Side) : ℤ :=
  max 0 (min (12 - 1) ⌊xPosition * 12⌋)

/-- The mutable `activeKeys` set of PianoGestureHandler, as the list of
keys in insertion order. -/
structure PianoState where
  activeKeys : List KeyId
deriving DecidableEq

/-- One iteration item of the nested loops of PianoGestureHandler.process:
the hand side of the enclosing slot together with one named finger. -/
abbrev PianoItem := Side × Finger × FingerState

/-- The fingers of one hand slot in Object.entries order (thumb, index,
middle, ring, pinky), tagged with the slot handedness side; an absent slot
contributes nothing. -/
def handItems : Option HandData → List PianoItem
  | none => []
  | some hand =>
    [(hand.handedness.side, Finger.thumb, hand.fingers.thumb),
     (hand.handedness.side, Finger.index, hand.fingers.index),
     (hand.handedness.side, Finger.middle, hand.fingers.middle),
     (hand.handedness.side, Finger.ring, hand.fingers.ring),
     (hand.handedness.side, Finger.pinky, hand.fingers.pinky)]

/-- All iteration items of one process call, left slot then right slot. -/
def pianoItems (data : TwoHandGestureData) : List PianoItem :=
  handItems data.leftHand ++ handItems data.rightHand

/-- The per-finger activity test of PianoGestureHandler.process:
`finger.extended` and `finger.velocity.y > TAP_VELOCITY_THRESHOLD`. -/
def itemActive (it : PianoItem) : Bool :=
  it.2.2.extended && decide (it.2.2.velocity.y > TAP_VELOCITY_THRESHOLD)

/-- The keyId built for an item. -/
def itemKeyId (it : PianoItem) : KeyId :=
  ⟨it.1, it.2.1, getKeyIndex it.2.2.tip.x it.1⟩

/-- The press event pushed for a newly active item. -/
def pressEvent (it : PianoItem) (now : ℚ) : PianoKeyEvent :=
  ⟨.press, itemKeyId it, (itemKeyId it).keyIndex,
   min 1.0 (it.2.2.velocity.y / 3.0), it.1, it.2.1, now⟩

/-- The release event pushed for a key that stopped being active (the
source re-parses hand, finger and key index out of the keyId string). -/
def releaseEvent (k : KeyId) (now : ℚ) : PianoKeyEvent :=
  ⟨.release, k, k.keyIndex, 0, k.hand, k.finger, now⟩

/-- The loop body of PianoGestureHandler.process for one item: when the
finger is extended and tapping, add its keyId to `currentActiveKeys`
(set-insert) and push a press event when the keyId was not active on the
previous frame. -/
def pianoStep (prevActive : List KeyId) (now : ℚ)
    (acc : List KeyId × List PianoKeyEvent) (it : PianoItem) :
    List KeyId × List PianoKeyEvent :=
  if itemActive it then
    let k := itemKeyId it
    let cur := if k ∈ acc.1 then acc.1 else acc.1 ++ [k]
    if k ∈ prevActive then (cur, acc.2)
    else (cur, acc.2 ++ [pressEvent it now])
  else acc

/-- PianoGestureHandler.process: build the current active-key set and the
press events over all items, then emit a release for every previously
active key that is no longer active, and replace the stored set. -/
def pianoProcess (s : PianoState) (data : TwoHandGestureData) (now : ℚ) :
    PianoState × List PianoKeyEvent :=
  let r := (pianoItems data).foldl (pianoStep s.activeKeys now) ([], [])
  let releases :=
    (s.activeKeys.filter (fun k => decide (k ∉ r.1))).map
      (fun k => releaseEvent k now)
  (⟨r.1⟩, r.2 ++ releases)

/-! ### Guitar gesture handler (src/unnamed/part_004, GuitarGestureHandler) -/

/-- Strum direction. -/
inductive StrumType
  | downstrum
  | upstrum
deriving DecidableEq

/-- GuitarStrumEvent. -/
structure GuitarStrumEvent where
  type : StrumType
  velocity : ℚ
  stringIndex : ℤ
  fretPosition : ℤ
  timestamp : ℚ
deriving DecidableEq

/-- The mutable fields of GuitarGestureHandler: lastStrumTime and the
persistent fret/strum hand-role assignment. -/
structure GuitarState where
  lastStrumTime : ℚ
  fretHand : Option Side
  strumHand : Option Side
deriving DecidableEq

/-- Initial guitar handler state (lastStrumTime 0, both roles null). -/
def GuitarState.init : GuitarState := ⟨0, none, none⟩

/-- STRUM_COOLDOWN = 150 ms. -/
def STRUM_COOLDOWN : ℚ := 150

/-- STRUM_THRESHOLD = 1.5 (horizontal velocity threshold). -/
def STRUM_THRESHOLD : ℚ := 1.5

/-- The squared index-finger speed `velocity.x ** 2 + velocity.y ** 2`.
The source compares `Math.sqrt` of these squares; since the square root is
strictly monotone on nonnegative reals, `sqrt a > sqrt b * 1.5` holds
exactly when `a > b * 2.25`, so identifyHands below compares the squares
against the squared factor 2.25 = 9/4. The equivalence is proved in
`sqrt_ratio_iff`. -/
def speedSq (f : FingerState) : ℚ :=
  f.velocity.x ^ 2 + f.velocity.y ^ 2

/-- GuitarGestureHandler.identifyHands: with both hands present, the hand
whose index finger moves more than 1.5 times faster than the other becomes
the strum hand and the other the fret hand; otherwise (including when a
hand is missing) the previous assignment is kept. -/
def identifyHands (data : TwoHandGestureData) (s : GuitarState) : GuitarState :=
  match data.leftHand, data.rightHand with
  | some leftHand, some rightHand =>
    let leftSq := speedSq leftHand.fingers.index
    let rightSq := speedSq rightHand.fingers.index
    if leftSq > rightSq * (9 / 4) then
      { s with strumHand := some .left, fretHand := some .right }
    else if rightSq > leftSq * (9 / 4) then
      { s with strumHand := some .right, fretHand := some .left }
    else s
  | _, _ => s

/-- GuitarGestureHandler.getStringIndex: `Math.floor((1 - yPosition) * 6)`. -/
def getStringIndex (yPosition : ℚ) : ℤ :=
  ⌊(1 - yPosition) * 6⌋

/-- GuitarGestureHandler.getFretPosition: floor of the fret-hand index-tip
y over 12, clamped to 0..12 (the dead `extendedCount` local of the source,
whose value is never used, is omitted). -/
def getFretPosition (fretHand : HandData) : ℤ :=
  max 0 (min 12 ⌊fretHand.fingers.index.tip.y * 12⌋)

/-- GuitarGestureHandler.process: role inference, presence and cooldown
checks, then the strum test on the strum-hand index horizontal velocity. -/
def guitarProcess (s : GuitarState) (data : TwoHandGestureData) (now : ℚ) :
    GuitarState × List GuitarStrumEvent :=
  let s := identifyHands data s
  match s.strumHand, s.fretHand with
  | some strumSide, some fretSide =>
    let strumHandData := if strumSide = .left then data.leftHand else data.rightHand
    let fretHandData := if fretSide = .left then data.leftHand else data.rightHand
    match strumHandData, fretHandData with
    | some strumHandData, some fretHandData =>
      if now - s.lastStrumTime < STRUM_COOLDOWN then (s, [])
      else
        let indexFinger := strumHandData.fingers.index
        let horizontalVelocity := indexFinger.velocity.x
        if |horizontalVelocity| > STRUM_THRESHOLD then
          ({ s with lastStrumTime := now },
           [⟨if horizontalVelocity > 0 then .downstrum else .upstrum,
             min 1.0 (|horizontalVelocity| / 3.0),
             getStringIndex indexFinger.tip.y,
             getFretPosition fretHandData, now⟩])
        else (s, [])
    | _, _ => (s, [])
  | _, _ => (s, [])

/-- A trace of guitar process calls. -/
def guitarRun (s : GuitarState) (frames : List (ℚ × TwoHandGestureData)) :
    GuitarState × List GuitarStrumEvent :=
  frames.foldl
    (fun acc f =>
      let r := guitarProcess acc.1 f.2 f.1
      (r.1, acc.2 ++ r.2))
    (s, [])

/-! ### Theremin gesture handler (src/unnamed/part_004, ThereminGestureHandler) -/

/-- ThereminEvent. -/
structure ThereminEvent where
  pitch : ℚ
  volume : ℚ
  vibrato : ℚ
  isActive : Bool
  timestamp : ℚ
deriving DecidableEq

/-- The mutable fields of ThereminGestureHandler. -/
structure ThereminState where
  isPlaying : Bool
  lastPitch : ℚ
  lastVolume : ℚ
deriving DecidableEq

/-- Initial theremin handler state. -/
def ThereminState.init : ThereminState := ⟨false, 0.5, 0.5⟩

/-- ThereminGestureHandler.process: the controlling hand is
`data.rightHand || data.leftHand`; on hand loss while playing, one
terminal inactive event with volume 0 is returned and `isPlaying` is
cleared; with no hand and not playing, nothing is returned; with a hand
present, a continuous-control event is returned every call. -/
def thereminProcess (s : ThereminState) (data : TwoHandGestureData) :
    ThereminState × Option ThereminEvent :=
  match data.rightHand.or data.leftHand with
  | none =>
    if s.isPlaying then
      ({ s with isPlaying := false },
       some ⟨s.lastPitch, 0, 0, false, data.timestamp⟩)
    else (s, none)
  | some hand =>
    let indexFinger := hand.fingers.index
    let pitch := 1 - indexFinger.tip.y
    let volume := indexFinger.tip.x
    let vibrato := min 1 (|indexFinger.velocity.y| / 2)
    (⟨true, pitch, volume⟩,
     some ⟨pitch, volume, vibrato, true, data.timestamp⟩)

/-- A trace of theremin process calls (the optional events concatenated). -/
def thereminRun (s : ThereminState) (frames : List TwoHandGestureData) :
    ThereminState × List ThereminEvent :=
  frames.foldl
    (fun acc d =>
      let r := thereminProcess acc.1 d
      (r.1, acc.2 ++ r.2.toList))
    (s, [])

/-! ### Stage pipeline (src/components/Stage.tsx, processHand)

The side effects of processHand (audio trigger, websocket payload, visual
flash) are modelled as the optional emitted trigger; the in-place mutation
of the per-hand HandState map becomes an explicit map update. The DRUMS
branch additionally reshapes the note velocity with Math.pow(·, 1.2)
purely for loudness before dispatch; that irrational-valued reshaping is
not part of the emitted payload here, and no claim concerns the reshaped
value — trigger acceptance and all state updates are independent of it. -/

/-- The InstrumentRole enum of src/unnamed/part_000. -/
inductive InstrumentRole
  | DRUMS
  | GUITAR
  | PIANO
  | BASS
  | NONE
deriving DecidableEq

/-- The triggerDir field of the stage tuning configuration. -/
inductive TriggerDir
  | down
  | both
  | none
deriving DecidableEq

/-- One row of the stage tuning configuration table. -/
structure StageConfig where
  threshold : ℚ
  cooldown : ℚ
  triggerDir : TriggerDir
  muteThreshold : ℚ
deriving DecidableEq

/-- The `config` useMemo switch of Stage.tsx. -/
def stageConfig : InstrumentRole → StageConfig
  | .DRUMS => ⟨2.4, 45, .down, 0⟩
  | .PIANO => ⟨1.2, 100, .down, 0⟩
  | .BASS => ⟨1.5, 120, .both, 0⟩
  | .GUITAR => ⟨1.8, 100, .both, 4.0⟩
  | .NONE => ⟨1.5, 150, .none, 0⟩

/-- The per-hand HandState record of Stage.tsx. -/
structure HandState where
  y : ℚ
  x : ℚ
  lastTrigger : ℚ
  lastNoteTime : ℚ
  lastFrameTime : ℚ
deriving DecidableEq

/-- A trigger accepted by processHand: either the guitar mute or a note
(the note carries the clamped outputVelocity, the zone label and the
point position of the payload). -/
inductive StageTrigger
  | mute (timestamp : ℚ)
  | note (timestamp : ℚ) (velocity : ℚ) (zone : String) (posX posY : ℚ)
deriving DecidableEq

/-- The timestamp of a stage trigger. -/
def StageTrigger.timestamp : StageTrigger → ℚ
  | .mute t => t
  | .note t _ _ _ _ => t

/-- Stage.tsx processHand for one hand index: tracking-point selection,
lazy state initialization, tracking-loss reset (timeDiff > 500), noise
floor (timeDiff < 10), time-normalized velocity, state update, per-hand
cooldown, guitar mute logic, then the vertical trigger check. Inputs are
the role, the current state of this hand index (`none` when the map has
no entry yet), the landmark list and the frame timestamp; outputs the new
state for this hand index and the optionally accepted trigger. -/
def processHand (role : InstrumentRole) (st : Option HandState)
    (landmarks : List Vector3D) (timestamp : ℚ) :
    Option HandState × Option StageTrigger :=
  let cfg := stageConfig role
  let pointIndex : ℕ := if role = .DRUMS then 8 else 0
  match landmarks[pointIndex]? with
  | none => (st, none)
  | some point =>
    match st with
    | none => (some ⟨point.y, point.x, 0, 0, timestamp⟩, none)
    | some state =>
      let timeDiff := timestamp - state.lastFrameTime
      if timeDiff > 500 then
        (some { state with y := point.y, x := point.x, lastFrameTime := timestamp },
         none)
      else if timeDiff < 10 then (some state, none)
      else
        let deltaY := point.y - state.y
        let deltaX := point.x - state.x
        let velocityY := deltaY / timeDiff * 1000
        let velocityX := deltaX / timeDiff * 1000
        let state1 : HandState :=
          { state with y := point.y, x := point.x, lastFrameTime := timestamp }
        if timestamp - state1.lastTrigger < cfg.cooldown then (some state1, none)
        else if role = .GUITAR ∧ cfg.muteThreshold > 0 ∧
                |velocityX| > cfg.muteThreshold ∧
                timestamp - state1.lastNoteTime < 1500 then
          (some { state1 with lastTrigger := timestamp }, some (.mute timestamp))
        else
          let absVelocityY := |velocityY|
          let outputVelocity :=
            min (max ((absVelocityY - cfg.threshold) / (5.0 - cfg.threshold)) 0.1) 1.0
          if absVelocityY > cfg.threshold then
            let isValidTrigger :=
              match cfg.triggerDir with
              | .down => decide (velocityY > 0)
              | .both => true
              | .none => false
            if isValidTrigger then
              let zone := (if point.y < 0.5 then "top" else "bottom") ++ "-" ++
                          (if point.x < 0.5 then "left" else "right")
              (some { state1 with lastTrigger := timestamp, lastNoteTime := timestamp },
               some (.note timestamp outputVelocity zone point.x point.y))
            else (some state1, none)
          else (some state1, none)

/-- One step of the stage frame loop: apply processHand to the state of
the given hand index and store the result back into the map; a produced
trigger is tagged with the hand index. -/
def stageStep (role : InstrumentRole)
    (acc : (ℕ → Option HandState) × List (ℕ × StageTrigger))
    (step : ℕ × List Vector3D × ℚ) :
    (ℕ → Option HandState) × List (ℕ × StageTrigger) :=
  let r := processHand role (acc.1 step.1) step.2.1 step.2.2
  (fun j => if j = step.1 then r.1 else acc.1 j,
   acc.2 ++ (r.2.map (fun e => (step.1, e))).toList)

/-- A trace of stage processHand calls, starting from the empty hand map;
each step is (handIndex, landmarks, timestamp). -/
def stageRun (role : InstrumentRole) (steps : List (ℕ × List Vector3D × ℚ)) :
    (ℕ → Option HandState) × List (ℕ × StageTrigger) :=
  steps.foldl (stageStep role) (fun _ => none, [])

/-! ### Concrete sample data used by counterexamples and witnesses -/

/-- A resting finger: not extended, centered, zero velocity. -/
def stillFinger : FingerState := ⟨false, ⟨0.5, 0.5, 0⟩, Vector3D.zero⟩

/-- A hand with the given index-finger state and all other fingers resting. -/
def mkHand (h : Handedness) (idx : FingerState) : HandData :=
  ⟨h, ⟨stillFinger, idx, stillFinger, stillFinger, stillFinger⟩⟩

/-! ### C5 — drum zone partition -/

/-- C5: getDrumType is total and deterministic on [0,1] (it is a pure
function of x alone), and partitions horizontal positions into the five
zones with boundaries at 0.2 / 0.4 / 0.6 / 0.8: each x in [0,1] lands in
exactly the zone characterized below, a boundary value landing in the
bucket to its right. -/
theorem drum_zone_partition (x : ℚ) (h0 : 0 ≤ x) (h1 : x ≤ 1) :
    (getDrumType x = DrumType.hihat ↔ x < 0.2) ∧
    (getDrumType x = DrumType.snare ↔ 0.2 ≤ x ∧ x < 0.4) ∧
    (getDrumType x = DrumType.kick ↔ 0.4 ≤ x ∧ x < 0.6) ∧
    (getDrumType x = DrumType.tom ↔ 0.6 ≤ x ∧ x < 0.8) ∧
    (getDrumType x = DrumType.crash ↔ 0.8 ≤ x) := by
  unfold getDrumType
  split_ifs with ha hb hc hd <;>
    refine ⟨?_, ?_, ?_, ?_, ?_⟩ <;> simp <;>
    first
      | linarith
      | (intro h; linarith)
      | (rintro ⟨h, h'⟩; linarith)
      | exact ⟨by linarith, by linarith⟩
      | (intro h; exact ⟨by linarith, by linarith⟩)

/-- Witness for C5 at the boundary value x = 0.4. -/
theorem drum_zone_partition_witness :
    (getDrumType 0.4 = DrumType.hihat ↔ (0.4 : ℚ) < 0.2) ∧
    (getDrumType 0.4 = DrumType.snare ↔ (0.2 : ℚ) ≤ 0.4 ∧ (0.4 : ℚ) < 0.4) ∧
    (getDrumType 0.4 = DrumType.kick ↔ (0.4 : ℚ) ≤ 0.4 ∧ (0.4 : ℚ) < 0.6) ∧
    (getDrumType 0.4 = DrumType.tom ↔ (0.6 : ℚ) ≤ 0.4 ∧ (0.4 : ℚ) < 0.8) ∧
    (getDrumType 0.4 = DrumType.crash ↔ (0.8 : ℚ) ≤ 0.4) :=
  drum_zone_partition 0.4 (by norm_num) (by norm_num)

/-! ### C1 — tracking-loss staleness reset -/

/-- C1 (amended part that holds): a per-fingertip velocity computed by
getFingerState after a gap of at least the 500 ms staleness bound is
exactly zero, and the cached position is silently reset to the current
tip with the current timestamp. -/
theorem finger_staleness_reset (finger : Finger) (landmarks : Fin 21 → Vector3D)
    (prev : PrevFingerTip) (now : ℚ) (hgap : 500 ≤ now - prev.timestamp) :
    (getFingerState finger landmarks (some prev) now).1.velocity = Vector3D.zero ∧
    (getFingerState finger landmarks (some prev) now).2 =
      ⟨(landmarks (tipIndex finger)).x, (landmarks (tipIndex finger)).y,
       (landmarks (tipIndex finger)).z, now⟩ := by
  have h2 : (0.5 : ℚ) ≤ (now - prev.timestamp) / 1000 := by
    rw [le_div_iff₀ (by norm_num : (0 : ℚ) < 1000)]
    norm_num
    linarith
  constructor <;> simp [getFingerState, not_lt.mpr h2]

/-- Witness for C1: a finger reappearing after a 600 ms gap having moved
from the origin to (1,1,1) still reports zero velocity, and the cache is
reset to the new tip. -/
theorem finger_staleness_reset_witness :
    (getFingerState Finger.index (fun _ => ⟨1, 1, 1⟩) (some ⟨0, 0, 0, 0⟩) 600).1.velocity
        = Vector3D.zero ∧
    (getFingerState Finger.index (fun _ => ⟨1, 1, 1⟩) (some ⟨0, 0, 0, 0⟩) 600).2
        = ⟨1, 1, 1, 600⟩ :=
  finger_staleness_reset Finger.index (fun _ => ⟨1, 1, 1⟩) ⟨0, 0, 0, 0⟩ 600 (by norm_num)

/-- Counterexample to C1 as stated: the hand-level (wrist) velocity of
calculateVelocity applies no staleness bound. After a 1000 ms gap during
which the wrist moved by 0.5 screen widths, the computed velocity is
0.5 units/s, not zero. -/
theorem hand_velocity_stale_not_zero :
    (calculateVelocity (fun _ => ⟨0.5, 0, 0⟩)
        (some ⟨fun _ => ⟨0, 0, 0⟩, Vector3D.zero, 0⟩) 1000).1 = ⟨0.5, 0, 0⟩ ∧
    (⟨0.5, 0, 0⟩ : Vector3D) ≠ Vector3D.zero := by
  constructor
  · norm_num [calculateVelocity, Vector3D.zero]
  · simp only [Vector3D.zero, ne_eq, Vector3D.mk.injEq]
    norm_num

/-! ### C3 — piano key index ignores the hand -/

/-- C3 (code evaluated at the failing input): getKeyIndex maps a left-hand
fingertip at x = 0.9 to key 10, although the function source comments and
the KEYS_PER_HAND = 6 constant document the left hand as covering keys
0-5; the hand argument is ignored by the body. -/
theorem getKeyIndex_ignores_hand :
    getKeyIndex 0.9 Side.left = 10 ∧ ¬(getKeyIndex 0.9 Side.left ≤ 5) ∧
    getKeyIndex 0.9 Side.left = getKeyIndex 0.9 Side.right := by
  refine ⟨?_, ?_, rfl⟩ <;> norm_num [getKeyIndex]

/-! ### C7 — guitar string index at the boundary -/

/-- C7 (code evaluated at the failing input): a strum performed with the
strum-hand index fingertip at the top edge of the screen (tip.y = 0)
emits a strum event carrying stringIndex 6, outside the 0-5 range that
the event declaration documents; getStringIndex has no clamp, unlike
getFretPosition. -/
theorem guitar_string_index_boundary :
    ((guitarProcess GuitarState.init
        ⟨some (mkHand .Left ⟨true, ⟨0.5, 0, 0⟩, ⟨3, 0, 0⟩⟩),
         some (mkHand .Right stillFinger), 200⟩ 200).2.map
      (fun e => e.stringIndex)) = [6] ∧ ¬((6 : ℤ) ≤ 5) := by
  constructor
  · simp [guitarProcess, identifyHands, speedSq, GuitarState.init, mkHand,
      stillFinger, getStringIndex, getFretPosition, STRUM_COOLDOWN, STRUM_THRESHOLD,
      Vector3D.zero]
    norm_num
  · decide

/-! ### C9 — noise floor for tiny time steps -/

/-- C9 (amended part that holds): in the stage pipeline, a sample arriving
less than 10 ms after the previous one for that hand is ignored entirely:
processHand leaves the cached hand state unchanged, computes no velocity
and accepts no trigger. -/
theorem stage_noise_floor (role : InstrumentRole) (state : HandState)
    (landmarks : List Vector3D) (timestamp : ℚ)
    (h : timestamp - state.lastFrameTime < 10) :
    processHand role (some state) landmarks timestamp = (some state, none) := by
  unfold processHand
  cases hp : landmarks[(if role = InstrumentRole.DRUMS then (8 : ℕ) else 0)]? with
  | none => simp [hp]
  | some point =>
    have h500 : ¬((500 : ℚ) < timestamp - state.lastFrameTime) := by linarith
    simp [hp, h500, h]

/-- Witness for C9: a drums-role sample 5 ms after the previous frame is
dropped with the state intact. -/
theorem stage_noise_floor_witness :
    processHand InstrumentRole.DRUMS (some ⟨0, 0, 0, 0, 100⟩) [] 105
      = (some ⟨0, 0, 0, 0, 100⟩, none) :=
  stage_noise_floor InstrumentRole.DRUMS ⟨0, 0, 0, 0, 100⟩ [] 105 (by norm_num)

/-- Counterexample to C9 as stated: the per-finger path of
TwoHandGestureDetector.getFingerState has no noise floor. A sample 5 ms
after the previous one computes a velocity from the tiny dt (here
(0.1 - 0) / 0.005 s = 20 units/s) and overwrites the cached state. -/
theorem finger_no_noise_floor :
    (getFingerState Finger.index (fun _ => ⟨0.1, 0, 0⟩) (some ⟨0, 0, 0, 0⟩) 5).1.velocity.x
        = 20 ∧
    (getFingerState Finger.index (fun _ => ⟨0.1, 0, 0⟩) (some ⟨0, 0, 0, 0⟩) 5).2.timestamp
        = 5 := by
  constructor
  · norm_num [getFingerState]
  · norm_num [getFingerState]

/-! ### C8 — theremin terminal event on hand loss -/

/-- A frame with no detected hand. -/
def noHandFrame (d : TwoHandGestureData) : Prop :=
  d.rightHand = none ∧ d.leftHand = none

instance (d : TwoHandGestureData) : Decidable (noHandFrame d) := by
  unfold noHandFrame
  infer_instance

/-- With no hand and the handler idle, process is a no-op. -/
theorem thereminProcess_idle (s : ThereminState) (d : TwoHandGestureData)
    (hd : noHandFrame d) (hs : s.isPlaying = false) :
    thereminProcess s d = (s, none) := by
  obtain ⟨hr, hl⟩ := hd
  simp [thereminProcess, hr, hl, hs]

/-- With no hand while a note was playing, process returns the terminal
inactive event and clears the playing flag. -/
theorem thereminProcess_loss (s : ThereminState) (d : TwoHandGestureData)
    (hd : noHandFrame d) (hs : s.isPlaying = true) :
    thereminProcess s d =
      ({ s with isPlaying := false },
       some ⟨s.lastPitch, 0, 0, false, d.timestamp⟩) := by
  obtain ⟨hr, hl⟩ := hd
  simp [thereminProcess, hr, hl, hs]

/-- An idle handler stays idle and silent over any run of no-hand frames. -/
theorem thereminRun_idle (frames : List TwoHandGestureData)
    (hf : ∀ d ∈ frames, noHandFrame d) (s : ThereminState)
    (hs : s.isPlaying = false) (acc : List ThereminEvent) :
    frames.foldl
      (fun acc d =>
        let r := thereminProcess acc.1 d
        (r.1, acc.2 ++ r.2.toList)) (s, acc) = (s, acc) := by
  induction frames with
  | nil => rfl
  | cons d rest ih =>
    have hd := hf d (List.mem_cons_self d rest)
    rw [List.foldl_cons]
    simp only [thereminProcess_idle s d hd hs, Option.toList_none, List.append_nil]
    exact ih (fun d' hd' => hf d' (List.mem_cons_of_mem d hd'))

/-- C8: theremin hand-loss semantics. (1) On the frame where the
controlling hand disappears while a note was playing, exactly one
terminal event is returned, with isActive false and volume 0, and the
playing flag is cleared. (2) With no hand and nothing playing, no event
is returned. (3) Whenever a hand is present an event with isActive true
is returned — every frame, with no cooldown condition. (4)(5) Over any
run of hand-free frames, exactly one event total is emitted when a note
was playing at the start (the terminal one), and none otherwise. -/
theorem theremin_hand_loss (s : ThereminState) (data : TwoHandGestureData) :
    (noHandFrame data → s.isPlaying = true →
      thereminProcess s data =
        ({ s with isPlaying := false },
         some ⟨s.lastPitch, 0, 0, false, data.timestamp⟩)) ∧
    (noHandFrame data → s.isPlaying = false →
      thereminProcess s data = (s, none)) ∧
    (∀ hand, data.rightHand.or data.leftHand = some hand →
      (thereminProcess s data).2 =
        some ⟨1 - hand.fingers.index.tip.y, hand.fingers.index.tip.x,
              min 1 (|hand.fingers.index.velocity.y| / 2), true, data.timestamp⟩ ∧
      (thereminProcess s data).1.isPlaying = true) ∧
    (∀ frames : List TwoHandGestureData, (∀ d ∈ frames, noHandFrame d) →
      s.isPlaying = true → frames ≠ [] → (thereminRun s frames).2.length = 1) ∧
    (∀ frames : List TwoHandGestureData, (∀ d ∈ frames, noHandFrame d) →
      s.isPlaying = false → (thereminRun s frames).2.length = 0) := by
  refine ⟨?_, ?_, ?_, ?_, ?_⟩
  · exact fun hd hs => thereminProcess_loss s data hd hs
  · exact fun hd hs => thereminProcess_idle s data hd hs
  · intro hand hh
    simp [thereminProcess, hh]
  · intro frames hf hs hne
    match frames with
    | [] => exact absurd rfl hne
    | d :: rest =>
      have hd := hf d (List.mem_cons_self d rest)
      have hstep := thereminProcess_loss s d hd hs
      unfold thereminRun
      rw [List.foldl_cons]
      simp only [hstep]
      rw [thereminRun_idle rest (fun d' hd' => hf d' (List.mem_cons_of_mem d hd'))
          _ rfl _]
      rfl
  · intro frames hf hs
    unfold thereminRun
    rw [thereminRun_idle frames hf s hs []]
    rfl

/-- Witness for C8: a playing theremin handler receiving a hand-free
frame emits the single terminal inactive event with volume 0. -/
theorem theremin_hand_loss_witness :
    thereminProcess ⟨true, 0.25, 0.75⟩ ⟨none, none, 42⟩ =
      (⟨false, 0.25, 0.75⟩, some ⟨0.25, 0, 0, false, 42⟩) :=
  (theremin_hand_loss ⟨true, 0.25, 0.75⟩ ⟨none, none, 42⟩).1 ⟨rfl, rfl⟩ rfl

/-! ### C6 — guitar hand-role hysteresis -/

/-- The comparison the source makes on speeds, `sqrt u > sqrt v * 1.5`,
holds exactly when the squared comparison `u > v * 2.25` holds (for a
nonnegative v); this justifies identifyHands comparing squared speeds
against the squared factor 9/4. -/
theorem sqrt_ratio_iff (u v : ℝ) (hv : 0 ≤ v) :
    Real.sqrt u > Real.sqrt v * (3 / 2) ↔ u > v * (9 / 4) := by
  have h94 : Real.sqrt v * (3 / 2) = Real.sqrt (v * (9 / 4)) := by
    rw [Real.sqrt_mul hv, show ((9 : ℝ) / 4) = (3 / 2) ^ 2 by norm_num,
      Real.sqrt_sq (by norm_num : (0 : ℝ) ≤ 3 / 2)]
  rw [h94, gt_iff_lt, Real.sqrt_lt_sqrt_iff (by positivity)]

/-- The squared-comparison bridge stated over ℚ, as identifyHands uses it. -/
theorem sqrt_ratio_iff_q (u v : ℚ) (hv : 0 ≤ v) :
    Real.sqrt (u : ℝ) > Real.sqrt (v : ℝ) * (3 / 2) ↔ u > v * (9 / 4) := by
  rw [sqrt_ratio_iff (u : ℝ) (v : ℝ) (by exact_mod_cast hv),
    show ((v : ℝ) * (9 / 4)) = ((v * (9 / 4) : ℚ) : ℝ) from by push_cast; ring]
  exact ⟨fun h => by exact_mod_cast h, fun h => by exact_mod_cast h⟩

/-- Squared speeds are nonnegative. -/
theorem speedSq_nonneg (f : FingerState) : 0 ≤ speedSq f := by
  unfold speedSq
  positivity

/-- C6: guitar hand-role assignment has hysteresis. With both hands
present, writing L and R for the two index-finger speed magnitudes
(square roots of the squared speeds the source compares): if neither
speed exceeds 1.5 times the other, identifyHands leaves the previous
role assignment completely unchanged; roles are (re)assigned exactly on
a frame where one speed exceeds 1.5 times the other, the faster hand
becoming strum and the other fret. -/
theorem guitar_role_hysteresis (data : TwoHandGestureData) (s : GuitarState)
    (lh rh : HandData) (hL : data.leftHand = some lh) (hR : data.rightHand = some rh) :
    (Real.sqrt (speedSq lh.fingers.index : ℝ) ≤ Real.sqrt (speedSq rh.fingers.index : ℝ) * (3 / 2) →
     Real.sqrt (speedSq rh.fingers.index : ℝ) ≤ Real.sqrt (speedSq lh.fingers.index : ℝ) * (3 / 2) →
     identifyHands data s = s) ∧
    (Real.sqrt (speedSq lh.fingers.index : ℝ) > Real.sqrt (speedSq rh.fingers.index : ℝ) * (3 / 2) →
     identifyHands data s = { s with strumHand := some Side.left, fretHand := some Side.right }) ∧
    (Real.sqrt (speedSq rh.fingers.index : ℝ) > Real.sqrt (speedSq lh.fingers.index : ℝ) * (3 / 2) →
     identifyHands data s = { s with strumHand := some Side.right, fretHand := some Side.left }) := by
  have hLq : (0 : ℝ) ≤ (speedSq lh.fingers.index : ℝ) := by
    exact_mod_cast speedSq_nonneg lh.fingers.index
  have hRq : (0 : ℝ) ≤ (speedSq rh.fingers.index : ℝ) := by
    exact_mod_cast speedSq_nonneg rh.fingers.index
  refine ⟨?_, ?_, ?_⟩
  · intro h1 h2
    have q1 : ¬(speedSq lh.fingers.index > speedSq rh.fingers.index * (9 / 4)) := by
      rw [← sqrt_ratio_iff_q _ _ (speedSq_nonneg rh.fingers.index)]
      exact not_lt.mpr h1
    have q2 : ¬(speedSq rh.fingers.index > speedSq lh.fingers.index * (9 / 4)) := by
      rw [← sqrt_ratio_iff_q _ _ (speedSq_nonneg lh.fingers.index)]
      exact not_lt.mpr h2
    simp [identifyHands, hL, hR, q1, q2]
  · intro h1
    have hq : speedSq lh.fingers.index > speedSq rh.fingers.index * (9 / 4) :=
      (sqrt_ratio_iff_q _ _ (speedSq_nonneg rh.fingers.index)).mp h1
    simp [identifyHands, hL, hR, hq]
  · intro h2
    have hq : speedSq rh.fingers.index > speedSq lh.fingers.index * (9 / 4) :=
      (sqrt_ratio_iff_q _ _ (speedSq_nonneg lh.fingers.index)).mp h2
    have hq' : ¬(speedSq lh.fingers.index > speedSq rh.fingers.index * (9 / 4)) := by
      intro hcon
      have hl0 := speedSq_nonneg lh.fingers.index
      have hr0 := speedSq_nonneg rh.fingers.index
      linarith
    simp [identifyHands, hL, hR, hq, hq']

/-- Witness for C6: two hands with equal index-finger speeds (both of
squared speed 1) leave an existing strum/fret assignment untouched. -/
theorem guitar_role_hysteresis_witness :
    identifyHands
      ⟨some (mkHand .Left ⟨true, ⟨0.5, 0.5, 0⟩, ⟨1, 0, 0⟩⟩),
       some (mkHand .Right ⟨true, ⟨0.5, 0.5, 0⟩, ⟨0, 1, 0⟩⟩), 7⟩
      ⟨123, some Side.left, some Side.right⟩ =
      ⟨123, some Side.left, some Side.right⟩ := by
  have hsp : speedSq (⟨true, ⟨0.5, 0.5, 0⟩, ⟨1, 0, 0⟩⟩ : FingerState) = 1 := by
    norm_num [speedSq]
  have hsp' : speedSq (⟨true, ⟨0.5, 0.5, 0⟩, ⟨0, 1, 0⟩⟩ : FingerState) = 1 := by
    norm_num [speedSq]
  refine (guitar_role_hysteresis _ _ _ _ rfl rfl).1 ?_ ?_ <;>
  · simp only [mkHand, hsp, hsp']
    rw [Rat.cast_one, Real.sqrt_one]
    norm_num

/-! ### Drum handler lemmas (for C2 and C10) -/

/-- Reading back the side just written. -/
theorem lastHit_set_self (s : DrumState) (side : Side) (t : ℚ) :
    (s.setLastHit side t).lastHit side = t := by
  cases side <;> rfl

/-- Writing one side leaves the other unchanged. -/
theorem lastHit_set_other (s : DrumState) (side side' : Side) (t : ℚ)
    (h : side' ≠ side) : (s.setLastHit side t).lastHit side' = s.lastHit side' := by
  cases side <;> cases side' <;> first | rfl | exact absurd rfl h

/-- Case analysis of one drum hand-slot step: either the accumulator is
returned unchanged, or exactly one event is appended, carrying timestamp
`now`, a velocity in (0.4, 1], the side of the handedness label, with the
cooldown satisfied beforehand and the side last-hit time set to `now`. -/
theorem drumProcessHand_cases (now : ℚ) (acc : DrumState × List DrumHitEvent)
    (h : Option HandData) :
    drumProcessHand now acc h = acc ∨
    ∃ hand ev, h = some hand ∧
      drumProcessHand now acc h = (acc.1.setLastHit hand.handedness.side now, acc.2 ++ [ev]) ∧
      ev.timestamp = now ∧ ev.hand = hand.handedness.side ∧
      0.4 < ev.velocity ∧ ev.velocity ≤ 1 ∧
      acc.1.lastHit hand.handedness.side + HIT_COOLDOWN ≤ now := by
  match h with
  | none => exact Or.inl rfl
  | some hand =>
    simp only [drumProcessHand]
    split_ifs with h1 h2
    · exact Or.inl rfl
    · refine Or.inr ⟨hand, _, rfl, rfl, rfl, rfl, ?_, ?_, ?_⟩
      · rw [lt_min_iff]
        refine ⟨by norm_num, ?_⟩
        rw [lt_div_iff₀ (by norm_num : (0 : ℚ) < 5.0)]
        have h2' : (2.0 : ℚ) < hand.fingers.index.velocity.y := by
          have := h2
          unfold VELOCITY_THRESHOLD at this
          exact this
        norm_num at h2' ⊢
        linarith
      · exact le_trans (min_le_left _ _) (by norm_num)
      · have := not_lt.mp h1
        linarith
    · exact Or.inl rfl

/-- The drum per-hand step only ever appends to the event list. -/
theorem drumProcessHand_append (now : ℚ) (s : DrumState)
    (evs0 evs : List DrumHitEvent) (h : Option HandData) :
    drumProcessHand now (s, evs0 ++ evs) h =
      ((drumProcessHand now (s, evs) h).1,
       evs0 ++ (drumProcessHand now (s, evs) h).2) := by
  match h with
  | none => rfl
  | some hand =>
    simp only [drumProcessHand]
    split_ifs <;> simp

/-- Folding drum hand slots from an accumulator with a prefix of earlier
events equals folding from the suffix and re-attaching the prefix. -/
theorem drumFold_append (now : ℚ) (slots : List (Option HandData)) :
    ∀ (s : DrumState) (evs0 evs : List DrumHitEvent),
      slots.foldl (drumProcessHand now) (s, evs0 ++ evs) =
        ((slots.foldl (drumProcessHand now) (s, evs)).1,
         evs0 ++ (slots.foldl (drumProcessHand now) (s, evs)).2) := by
  induction slots with
  | nil => intro s evs0 evs; rfl
  | cons h t ih =>
    intro s evs0 evs
    rw [List.foldl_cons, List.foldl_cons, drumProcessHand_append]
    exact ih _ _ _

/-- The invariant tying the drum handler state to the trace of already
emitted events: every event timestamp for a side is bounded by that side
last-hit time, and per side the event timestamps are pairwise at least
one cooldown apart. -/
def drumInv (s : DrumState) (evs : List DrumHitEvent) : Prop :=
  ∀ side : Side,
    (∀ e ∈ evs, e.hand = side → e.timestamp ≤ s.lastHit side) ∧
    (evs.filter (fun e => e.hand == side)).Pairwise
      (fun a b => a.timestamp + HIT_COOLDOWN ≤ b.timestamp)

/-- The empty trace satisfies the invariant for any state. -/
theorem drumInv_nil (s : DrumState) : drumInv s [] := by
  intro side
  exact ⟨fun e he => absurd he (List.not_mem_nil e), List.Pairwise.nil⟩

/-- One drum hand-slot step preserves the invariant. -/
theorem drumProcessHand_inv (now : ℚ) (acc : DrumState × List DrumHitEvent)
    (h : Option HandData) (hinv : drumInv acc.1 acc.2) :
    drumInv (drumProcessHand now acc h).1 (drumProcessHand now acc h).2 := by
  rcases drumProcessHand_cases now acc h with heq | ⟨hand, ev, -, heq, hts, hhand, -, -, hcool⟩
  · rw [heq]; exact hinv
  · rw [heq]
    intro side
    obtain ⟨hbound, hpair⟩ := hinv side
    have hc0 : (0 : ℚ) < HIT_COOLDOWN := by norm_num [HIT_COOLDOWN]
    by_cases hside : side = hand.handedness.side
    · subst hside
      constructor
      · intro e he hz
        rcases List.mem_append.mp he with he | he
        · have := hbound e he hz
          rw [lastHit_set_self]
          linarith
        · rw [List.mem_singleton.mp he, hts, lastHit_set_self]
      · rw [List.filter_append]
        have hf : List.filter (fun e => e.hand == hand.handedness.side) [ev] = [ev] := by
          simp [hhand]
        rw [hf, List.pairwise_append]
        refine ⟨hpair, List.pairwise_singleton _ _, ?_⟩
        intro a ha b hb
        have ha' := List.mem_of_mem_filter ha
        have haz : a.hand = hand.handedness.side := by
          have := List.of_mem_filter ha
          simpa using this
        rw [List.mem_singleton.mp hb, hts]
        have := hbound a ha' haz
        linarith
    · constructor
      · intro e he hz
        rcases List.mem_append.mp he with he | he
        · rw [lastHit_set_other _ _ _ _ hside]
          exact hbound e he hz
        · rw [List.mem_singleton.mp he] at hz
          exact absurd (hz.symm.trans hhand) hside
      · rw [List.filter_append]
        have hf : List.filter (fun e => e.hand == side) [ev] = [] := by
          have : (ev.hand == side) = false := by
            rw [hhand]
            exact beq_eq_false_iff_ne.mpr (fun hcon => hside hcon.symm)
          simp [List.filter, this]
        rw [hf, List.append_nil]
        exact hpair

/-- Folding any list of hand slots preserves the invariant. -/
theorem drumFold_inv (now : ℚ) (slots : List (Option HandData)) :
    ∀ acc : DrumState × List DrumHitEvent, drumInv acc.1 acc.2 →
      drumInv (slots.foldl (drumProcessHand now) acc).1
        (slots.foldl (drumProcessHand now) acc).2 := by
  induction slots with
  | nil => exact fun acc h => h
  | cons h t ih =>
    intro acc hinv
    rw [List.foldl_cons]
    exact ih _ (drumProcessHand_inv now acc h hinv)

/-- One drum trace step, seen as continuing the slot fold on the
accumulated events. -/
theorem drumRun_step (s : DrumState) (evs : List DrumHitEvent)
    (f : ℚ × TwoHandGestureData) :
    ((drumProcess s f.2 f.1).1, evs ++ (drumProcess s f.2 f.1).2) =
      [f.2.leftHand, f.2.rightHand].foldl (drumProcessHand f.1) (s, evs) := by
  have hap := drumFold_append f.1 [f.2.leftHand, f.2.rightHand] s evs []
  rw [List.append_nil] at hap
  rw [hap]
  rfl

/-- A whole drum trace preserves the invariant. -/
theorem drumRun_inv (frames : List (ℚ × TwoHandGestureData)) :
    ∀ (s : DrumState) (evs : List DrumHitEvent), drumInv s evs →
      drumInv
        (frames.foldl
          (fun acc f =>
            let r := drumProcess acc.1 f.2 f.1
            (r.1, acc.2 ++ r.2)) (s, evs)).1
        (frames.foldl
          (fun acc f =>
            let r := drumProcess acc.1 f.2 f.1
            (r.1, acc.2 ++ r.2)) (s, evs)).2 := by
  induction frames with
  | nil => exact fun s evs h => h
  | cons f t ih =>
    intro s evs hinv
    rw [List.foldl_cons]
    show drumInv (t.foldl _ ((drumProcess s f.2 f.1).1, evs ++ (drumProcess s f.2 f.1).2)).1
      (t.foldl _ ((drumProcess s f.2 f.1).1, evs ++ (drumProcess s f.2 f.1).2)).2
    rw [drumRun_step s evs f]
    exact ih _ _ (drumFold_inv f.1 [f.2.leftHand, f.2.rightHand] (s, evs) hinv)

/-! ### C10 — drum hit velocity range -/

/-- Every event of a drum slot fold is an old event or has velocity in
(0.4, 1]. -/
theorem drumFold_velocity (now : ℚ) (slots : List (Option HandData)) :
    ∀ (acc : DrumState × List DrumHitEvent)
      (hacc : ∀ e ∈ acc.2, 0.4 < e.velocity ∧ e.velocity ≤ 1),
      ∀ e ∈ (slots.foldl (drumProcessHand now) acc).2,
        0.4 < e.velocity ∧ e.velocity ≤ 1 := by
  induction slots with
  | nil => exact fun acc hacc => hacc
  | cons h t ih =>
    intro acc hacc
    rw [List.foldl_cons]
    refine ih _ ?_
    rcases drumProcessHand_cases now acc h with heq | ⟨hand, ev, -, heq, -, -, hv1, hv2, -⟩
    · rw [heq]; exact hacc
    · rw [heq]
      intro e he
      rcases List.mem_append.mp he with he | he
      · exact hacc e he
      · rw [List.mem_singleton.mp he]
        exact ⟨hv1, hv2⟩

/-- Velocity bounds propagate through a whole drum trace fold. -/
theorem drumRunAux_velocity (frames : List (ℚ × TwoHandGestureData)) :
    ∀ (s : DrumState) (evs : List DrumHitEvent),
      (∀ e ∈ evs, 0.4 < e.velocity ∧ e.velocity ≤ 1) →
      ∀ e ∈ (frames.foldl
          (fun acc f =>
            let r := drumProcess acc.1 f.2 f.1
            (r.1, acc.2 ++ r.2)) (s, evs)).2,
        0.4 < e.velocity ∧ e.velocity ≤ 1 := by
  induction frames with
  | nil => exact fun s evs h => h
  | cons f t ih =>
    intro s evs hacc
    rw [List.foldl_cons]
    show ∀ e ∈ (t.foldl _
        ((drumProcess s f.2 f.1).1, evs ++ (drumProcess s f.2 f.1).2)).2, _
    rw [drumRun_step s evs f]
    exact ih _ _ (drumFold_velocity f.1 [f.2.leftHand, f.2.rightHand] (s, evs) hacc)

/-- C10: every drum hit event emitted over any trace has velocity
strictly greater than 0.4 and at most 1: a hit requires index-finger
downward velocity above the strike threshold 2.0, and the event velocity
is that velocity divided by 5.0 and capped at 1.0, so no emitted hit is
quieter than 0.4. -/
theorem drum_hit_velocity_range (s : DrumState)
    (frames : List (ℚ × TwoHandGestureData)) :
    ∀ e ∈ (drumRun s frames).2, 0.4 < e.velocity ∧ e.velocity ≤ 1 := by
  unfold drumRun
  exact drumRunAux_velocity frames s []
    (fun e he => absurd he (List.not_mem_nil e))

/-- One concrete drum frame: a right hand striking with index-finger
downward velocity 3 at x = 0.1. -/
def c10Frame : ℚ × TwoHandGestureData :=
  (100, ⟨none, some (mkHand .Right ⟨true, ⟨0.1, 0.3, 0⟩, ⟨0, 3, 0⟩⟩), 100⟩)

/-- The hi-hat hit that frame produces (velocity 3 / 5 = 0.6). -/
def c10Event : DrumHitEvent := ⟨DrumType.hihat, 0.6, 100, Side.right, 0.1, 0.3⟩

/-- The concrete frame produces exactly the expected hi-hat event. -/
theorem c10Frame_event : (drumRun DrumState.init [c10Frame]).2 = [c10Event] := by
  simp [drumRun, drumProcess, drumProcessHand, DrumState.init, c10Frame, c10Event,
    mkHand, stillFinger, HIT_COOLDOWN, VELOCITY_THRESHOLD, getDrumType,
    DrumState.lastHit, DrumState.setLastHit, Handedness.side]
  norm_num

/-- Witness for C10: the concrete hi-hat hit has velocity 0.6 ∈ (0.4, 1]. -/
theorem drum_hit_velocity_range_witness :
    0.4 < c10Event.velocity ∧ c10Event.velocity ≤ 1 :=
  drum_hit_velocity_range DrumState.init [c10Frame] c10Event
    (c10Frame_event ▸ List.mem_singleton.mpr rfl)

/-! ### Guitar cooldown lemmas (for C2) -/

/-- Role inference never touches the strum cooldown clock. -/
theorem identifyHands_lastStrum (data : TwoHandGestureData) (s : GuitarState) :
    (identifyHands data s).lastStrumTime = s.lastStrumTime := by
  unfold identifyHands
  cases data.leftHand <;> cases data.rightHand <;> simp <;> split_ifs <;> rfl

/-- Case analysis of one guitar process call: either no event and the
cooldown clock unchanged, or exactly one event stamped `now`, emitted at
least one cooldown after the previous clock value, with the clock set to
`now`. -/
theorem guitarProcess_cases (s : GuitarState) (data : TwoHandGestureData) (now : ℚ) :
    (∃ t, guitarProcess s data now = (t, []) ∧ t.lastStrumTime = s.lastStrumTime) ∨
    (∃ t ev, guitarProcess s data now = (t, [ev]) ∧ t.lastStrumTime = now ∧
      ev.timestamp = now ∧ s.lastStrumTime + STRUM_COOLDOWN ≤ now) := by
  have hts := identifyHands_lastStrum data s
  simp only [guitarProcess]
  split
  all_goals try exact Or.inl ⟨_, rfl, hts⟩
  split
  all_goals try exact Or.inl ⟨_, rfl, hts⟩
  split_ifs with h5 h6
  all_goals try exact Or.inl ⟨_, rfl, hts⟩
  all_goals refine Or.inr ⟨_, _, rfl, rfl, rfl, ?_⟩
  all_goals rw [hts] at h5
  all_goals have := not_lt.mp h5
  all_goals linarith

/-- The guitar trace invariant: event timestamps are bounded by the
cooldown clock and pairwise at least one cooldown apart. -/
def guitarInv (g : GuitarState) (evs : List GuitarStrumEvent) : Prop :=
  (∀ e ∈ evs, e.timestamp ≤ g.lastStrumTime) ∧
  evs.Pairwise (fun a b => a.timestamp + STRUM_COOLDOWN ≤ b.timestamp)

/-- One guitar process call preserves the invariant on the accumulated
event trace. -/
theorem guitarProcess_inv (s : GuitarState) (data : TwoHandGestureData)
    (now : ℚ) (evs : List GuitarStrumEvent) (hinv : guitarInv s evs) :
    guitarInv (guitarProcess s data now).1 (evs ++ (guitarProcess s data now).2) := by
  obtain ⟨hbound, hpair⟩ := hinv
  have hc0 : (0 : ℚ) < STRUM_COOLDOWN := by norm_num [STRUM_COOLDOWN]
  rcases guitarProcess_cases s data now with ⟨t, heq, hts⟩ | ⟨t, ev, heq, htl, hets, hcool⟩
  · rw [heq, List.append_nil]
    exact ⟨fun e he => hts ▸ hbound e he, hpair⟩
  · rw [heq]
    constructor
    · intro e he
      rcases List.mem_append.mp he with he | he
      · have := hbound e he
        rw [htl]
        linarith
      · rw [List.mem_singleton.mp he, hets, htl]
    · rw [List.pairwise_append]
      refine ⟨hpair, List.pairwise_singleton _ _, ?_⟩
      intro a ha b hb
      rw [List.mem_singleton.mp hb, hets]
      have := hbound a ha
      linarith

/-- A whole guitar trace preserves the invariant. -/
theorem guitarRun_inv (frames : List (ℚ × TwoHandGestureData)) :
    ∀ (g : GuitarState) (evs : List GuitarStrumEvent), guitarInv g evs →
      guitarInv
        (frames.foldl
          (fun acc f =>
            let r := guitarProcess acc.1 f.2 f.1
            (r.1, acc.2 ++ r.2)) (g, evs)).1
        (frames.foldl
          (fun acc f =>
            let r := guitarProcess acc.1 f.2 f.1
            (r.1, acc.2 ++ r.2)) (g, evs)).2 := by
  induction frames with
  | nil => exact fun g evs h => h
  | cons f t ih =>
    intro g evs hinv
    rw [List.foldl_cons]
    exact ih _ _ (guitarProcess_inv g f.2 f.1 evs hinv)

/-! ### Stage cooldown lemmas (for C2) -/

/-- Every stage tuning row has a strictly positive cooldown. -/
theorem stageConfig_cooldown_pos (role : InstrumentRole) :
    0 < (stageConfig role).cooldown := by
  cases role <;> norm_num [stageConfig]

/-- Case analysis of one stage processHand call: either no trigger is
accepted and any existing lastTrigger clock is preserved, or the call had
an existing state, accepts one trigger stamped with the frame timestamp
at least one cooldown after the previous clock value, and records the
timestamp as the new clock value. -/
theorem processHand_cases (role : InstrumentRole) (st : Option HandState)
    (landmarks : List Vector3D) (ts : ℚ) :
    (∃ st', processHand role st landmarks ts = (st', none) ∧
      ∀ s0, st = some s0 → ∃ s1, st' = some s1 ∧ s0.lastTrigger ≤ s1.lastTrigger) ∨
    (∃ s0 s1 ev, st = some s0 ∧
      processHand role st landmarks ts = (some s1, some ev) ∧
      ev.timestamp = ts ∧ s1.lastTrigger = ts ∧
      s0.lastTrigger + (stageConfig role).cooldown ≤ ts) := by
  simp only [processHand]
  cases hp : landmarks[(if role = InstrumentRole.DRUMS then (8 : ℕ) else 0)]? with
  | none =>
    exact Or.inl ⟨st, rfl, fun s0 h => ⟨s0, h, le_rfl⟩⟩
  | some point =>
    cases st with
    | none =>
      exact Or.inl ⟨_, rfl, fun s0 h => by cases h⟩
    | some state =>
      simp only []
      split_ifs with h1 h2 h3 h4 h5 h6
      all_goals try exact Or.inl ⟨_, rfl,
        fun s0 h => by cases h; exact ⟨_, rfl, le_rfl⟩⟩
      -- the two accepting branches: mute and note
      all_goals refine Or.inr ⟨state, _, _, rfl, rfl, rfl, rfl, ?_⟩
      all_goals have := not_lt.mp h3
      all_goals linarith

/-- The stage trace invariant for cooldown `c`: every emitted trigger of
a hand index is bounded by that hand lastTrigger clock, and per hand
index the trigger timestamps are pairwise at least one cooldown apart. -/
def stageInv (c : ℚ) (m : ℕ → Option HandState)
    (evs : List (ℕ × StageTrigger)) : Prop :=
  ∀ i : ℕ,
    (∀ e ∈ evs, e.1 = i → ∃ st, m i = some st ∧ e.2.timestamp ≤ st.lastTrigger) ∧
    ((evs.filter (fun e => e.1 == i)).map (fun e => e.2)).Pairwise
      (fun a b => a.timestamp + c ≤ b.timestamp)

/-- One stage step preserves the invariant. -/
theorem stageStep_inv (role : InstrumentRole)
    (acc : (ℕ → Option HandState) × List (ℕ × StageTrigger))
    (step : ℕ × List Vector3D × ℚ)
    (hinv : stageInv (stageConfig role).cooldown acc.1 acc.2) :
    stageInv (stageConfig role).cooldown (stageStep role acc step).1
      (stageStep role acc step).2 := by
  have hc0 := stageConfig_cooldown_pos role
  rcases processHand_cases role (acc.1 step.1) step.2.1 step.2.2 with
    ⟨st', heq, hmono⟩ | ⟨s0, s1, ev, hst, heq, hets, hlt, hcool⟩
  · unfold stageStep
    rw [heq]
    intro i
    obtain ⟨hbound, hpair⟩ := hinv i
    refine ⟨?_, by simpa using hpair⟩
    intro e he hei
    simp only [Option.map_none', Option.toList_none, List.append_nil] at he
    obtain ⟨st0, hm, hb⟩ := hbound e he hei
    by_cases hii : i = step.1
    · subst hii
      obtain ⟨s1, hs1, hle⟩ := hmono st0 hm
      exact ⟨s1, by simpa using hs1, le_trans hb hle⟩
    · refine ⟨st0, ?_, hb⟩
      simp only []
      rw [if_neg hii]
      exact hm
  · unfold stageStep
    rw [heq]
    intro i
    obtain ⟨hbound, hpair⟩ := hinv i
    by_cases hii : i = step.1
    · subst hii
      constructor
      · intro e he hei
        simp only [Option.map_some', Option.toList_some] at he
        rcases List.mem_append.mp he with he | he
        · obtain ⟨st0, hm, hb⟩ := hbound e he hei
          rw [hst] at hm
          have hs0 : st0 = s0 := by
            injection hm with hm
            exact hm.symm
          refine ⟨s1, by simp, ?_⟩
          rw [hlt]
          rw [hs0] at hb
          linarith
        · rw [List.mem_singleton.mp he]
          exact ⟨s1, by simp, by rw [hets, hlt]⟩
      · simp only [Option.map_some', Option.toList_some, List.filter_append,
          List.map_append]
        have hf : List.filter (fun e => e.1 == step.1) [(step.1, ev)] = [(step.1, ev)] := by
          simp
        rw [hf, List.pairwise_append]
        refine ⟨hpair, by simp, ?_⟩
        intro a ha b hb
        simp only [List.map_cons, List.map_nil, List.mem_singleton] at hb
        rw [hb]
        obtain ⟨e, hemem, hemap⟩ := List.mem_map.mp ha
        have hei : e.1 = step.1 := by
          have := List.of_mem_filter hemem
          simpa using this
        obtain ⟨st0, hm, hbd⟩ := hbound e (List.mem_of_mem_filter hemem) hei
        rw [hst] at hm
        have hs0 : st0 = s0 := by
          injection hm with hm
          exact hm.symm
        rw [← hemap, hets]
        rw [hs0] at hbd
        linarith
    · constructor
      · intro e he hei
        simp only [Option.map_some', Option.toList_some] at he
        rcases List.mem_append.mp he with he | he
        · obtain ⟨st0, hm, hb⟩ := hbound e he hei
          refine ⟨st0, ?_, hb⟩
          simp only []
          rw [if_neg hii]
          exact hm
        · rw [List.mem_singleton.mp he] at hei
          exact absurd hei.symm hii
      · simp only [Option.map_some', Option.toList_some, List.filter_append]
        have hf : List.filter (fun e => e.1 == i) [(step.1, ev)] = [] := by
          simp only [List.filter, List.filter_nil]
          have hne : ((step.1, ev).1 == i) = false :=
            beq_eq_false_iff_ne.mpr (fun hcon => hii hcon.symm)
          rw [hne]
        rw [hf, List.append_nil]
        exact hpair

/-- A whole stage trace preserves the invariant. -/
theorem stageRun_inv (role : InstrumentRole)
    (steps : List (ℕ × List Vector3D × ℚ)) :
    ∀ acc, stageInv (stageConfig role).cooldown acc.1 acc.2 →
      stageInv (stageConfig role).cooldown (steps.foldl (stageStep role) acc).1
        (steps.foldl (stageStep role) acc).2 := by
  induction steps with
  | nil => exact fun acc h => h
  | cons st t ih =>
    intro acc hinv
    rw [List.foldl_cons]
    exact ih _ (stageStep_inv role acc st hinv)

/-- The empty stage trace satisfies the invariant. -/
theorem stageInv_empty (c : ℚ) :
    stageInv c (fun _ => none) [] := by
  intro i
  exact ⟨fun e he => absurd he (List.not_mem_nil e), by simp⟩

/-! ### C2 — per-identifier cooldown -/

/-- C2 (amended): triggers are accepted exactly when the elapsed time
since the identifier last recorded trigger is at least (≥, not strictly
greater than) the per-instrument cooldown, and the trigger time is
recorded on acceptance; consequently, for arbitrarily dense traces, no
two accepted triggers of one identifier are ever less than the cooldown
apart. Stated for a drum hand-slot call (acceptance condition), and as
pairwise trigger spacing per identifier for drum traces (per hand side),
guitar traces (the single strum source) and stage traces (per hand
index, per role). -/
theorem cooldown_monotonic :
    (∀ (s : DrumState) (hand : HandData) (now : ℚ),
      (drumProcessHand now (s, []) (some hand)).2 ≠ [] ↔
        (HIT_COOLDOWN ≤ now - s.lastHit hand.handedness.side ∧
         VELOCITY_THRESHOLD < hand.fingers.index.velocity.y)) ∧
    (∀ (s : DrumState) (frames : List (ℚ × TwoHandGestureData)) (side : Side),
      ((drumRun s frames).2.filter (fun e => e.hand == side)).Pairwise
        (fun a b => a.timestamp + HIT_COOLDOWN ≤ b.timestamp)) ∧
    (∀ (g : GuitarState) (frames : List (ℚ × TwoHandGestureData)),
      (guitarRun g frames).2.Pairwise
        (fun a b => a.timestamp + STRUM_COOLDOWN ≤ b.timestamp)) ∧
    (∀ (role : InstrumentRole) (steps : List (ℕ × List Vector3D × ℚ)) (i : ℕ),
      (((stageRun role steps).2.filter (fun e => e.1 == i)).map (fun e => e.2)).Pairwise
        (fun a b => a.timestamp + (stageConfig role).cooldown ≤ b.timestamp)) := by
  refine ⟨?_, ?_, ?_, ?_⟩
  · intro s hand now
    simp only [drumProcessHand]
    split_ifs with h1 h2
    · simp only [ne_eq, not_true_eq_false, false_iff, not_and]
      intro ha
      exact absurd h1 (not_lt.mpr ha)
    · refine iff_of_true (by simp) ⟨not_lt.mp h1, h2⟩
    · simp only [ne_eq, not_true_eq_false, false_iff, not_and]
      intro _ hv
      exact h2 hv
  · intro s frames side
    exact ((drumRun_inv frames s [] (drumInv_nil s)) side).2
  · intro g frames
    exact (guitarRun_inv frames g []
      ⟨fun e he => absurd he (List.not_mem_nil e), List.Pairwise.nil⟩).2
  · intro role steps i
    exact ((stageRun_inv role steps (fun _ => none, [])
      (stageInv_empty (stageConfig role).cooldown)) i).2

/-- One concrete drum frame used by the C2 counterexample: a right hand
striking with index-finger downward velocity 3. -/
def c2Frame : TwoHandGestureData :=
  ⟨none, some (mkHand .Right ⟨true, ⟨0.5, 0.5, 0⟩, ⟨0, 3, 0⟩⟩), 0⟩

/-- Counterexample to C2 as stated: two drum strikes exactly one cooldown
apart (at t = 100 and t = 180 with HIT_COOLDOWN = 80) are both accepted,
although the elapsed time since the recorded trigger does not exceed the
cooldown — the source accepts at elapsed time equal to the cooldown
(`now - last < cooldown` rejects, so `elapsed = cooldown` passes). -/
theorem drum_cooldown_boundary_accepted :
    ((drumRun DrumState.init [(100, c2Frame), (180, c2Frame)]).2.map
      (fun e => e.timestamp)) = [100, 180] ∧
    ¬((180 : ℚ) - 100 > HIT_COOLDOWN) := by
  constructor
  · simp [drumRun, drumProcess, drumProcessHand, DrumState.init, c2Frame,
      mkHand, stillFinger, HIT_COOLDOWN, VELOCITY_THRESHOLD,
      DrumState.lastHit, DrumState.setLastHit, Handedness.side]
    norm_num
  · norm_num [HIT_COOLDOWN]

/-! ### Piano lemmas (for C4) -/

/-- pianoStep when the key was already active on the previous frame. -/
theorem pianoStep_eq_pos (prev : List KeyId) (now : ℚ)
    (acc : List KeyId × List PianoKeyEvent) (it : PianoItem)
    (ha : itemActive it = true) (hp : itemKeyId it ∈ prev) :
    pianoStep prev now acc it =
      ((if itemKeyId it ∈ acc.1 then acc.1 else acc.1 ++ [itemKeyId it]), acc.2) := by
  simp [pianoStep, ha, hp]

/-- pianoStep when the key is newly active. -/
theorem pianoStep_eq_new (prev : List KeyId) (now : ℚ)
    (acc : List KeyId × List PianoKeyEvent) (it : PianoItem)
    (ha : itemActive it = true) (hp : itemKeyId it ∉ prev) :
    pianoStep prev now acc it =
      ((if itemKeyId it ∈ acc.1 then acc.1 else acc.1 ++ [itemKeyId it]),
       acc.2 ++ [pressEvent it now]) := by
  simp [pianoStep, ha, hp]

/-- pianoStep on an inactive item. -/
theorem pianoStep_eq_idle (prev : List KeyId) (now : ℚ)
    (acc : List KeyId × List PianoKeyEvent) (it : PianoItem)
    (ha : ¬ itemActive it = true) :
    pianoStep prev now acc it = acc := by
  simp [pianoStep, ha]

/-- Membership in the set-insert of the current keyId. -/
theorem pianoStep_insert_mem (acc1 : List KeyId) (key k : KeyId) :
    (k ∈ (if key ∈ acc1 then acc1 else acc1 ++ [key])) ↔ (k ∈ acc1 ∨ key = k) := by
  split_ifs with hc
  · constructor
    · exact fun h => Or.inl h
    · rintro (h | h)
      · exact h
      · exact h ▸ hc
  · simp [List.mem_append, eq_comm]

/-- Membership in the current active-key set after one piano item. -/
theorem pianoStep_cur_mem (prev : List KeyId) (now : ℚ)
    (acc : List KeyId × List PianoKeyEvent) (it : PianoItem) (k : KeyId) :
    k ∈ (pianoStep prev now acc it).1 ↔
      k ∈ acc.1 ∨ (itemActive it = true ∧ itemKeyId it = k) := by
  by_cases ha : itemActive it = true
  · by_cases hp : itemKeyId it ∈ prev
    · rw [pianoStep_eq_pos prev now acc it ha hp]
      simp [pianoStep_insert_mem, ha]
    · rw [pianoStep_eq_new prev now acc it ha hp]
      simp [pianoStep_insert_mem, ha]
  · rw [pianoStep_eq_idle prev now acc it ha]
    simp [ha]

/-- Membership in the current active-key set after folding piano items. -/
theorem pianoFold_cur_mem (prev : List KeyId) (now : ℚ) (items : List PianoItem) :
    ∀ (acc : List KeyId × List PianoKeyEvent) (k : KeyId),
      k ∈ (items.foldl (pianoStep prev now) acc).1 ↔
        k ∈ acc.1 ∨ ∃ it ∈ items, itemActive it = true ∧ itemKeyId it = k := by
  induction items with
  | nil => intro acc k; simp
  | cons it t ih =>
    intro acc k
    rw [List.foldl_cons, ih, pianoStep_cur_mem]
    constructor
    · rintro ((h | h) | ⟨it', hmem, h⟩)
      · exact Or.inl h
      · exact Or.inr ⟨it, List.mem_cons_self it t, h.1, h.2⟩
      · exact Or.inr ⟨it', List.mem_cons_of_mem it hmem, h⟩
    · rintro (h | ⟨it', hmem, h⟩)
      · exact Or.inl (Or.inl h)
      · rcases List.mem_cons.mp hmem with heq | hmem'
        · exact Or.inl (Or.inr (heq ▸ h))
        · exact Or.inr ⟨it', hmem', h⟩

/-- Membership in the press-event list after one piano item. -/
theorem pianoStep_press_mem (prev : List KeyId) (now : ℚ)
    (acc : List KeyId × List PianoKeyEvent) (it : PianoItem) (e : PianoKeyEvent) :
    e ∈ (pianoStep prev now acc it).2 ↔
      e ∈ acc.2 ∨
        (itemActive it = true ∧ itemKeyId it ∉ prev ∧ e = pressEvent it now) := by
  by_cases ha : itemActive it = true
  · by_cases hp : itemKeyId it ∈ prev
    · rw [pianoStep_eq_pos prev now acc it ha hp]
      simp [hp]
    · rw [pianoStep_eq_new prev now acc it ha hp]
      simp [List.mem_append, ha, hp]
  · rw [pianoStep_eq_idle prev now acc it ha]
    simp [ha]

/-- Membership in the press-event list after folding piano items. -/
theorem pianoFold_press_mem (prev : List KeyId) (now : ℚ) (items : List PianoItem) :
    ∀ (acc : List KeyId × List PianoKeyEvent) (e : PianoKeyEvent),
      e ∈ (items.foldl (pianoStep prev now) acc).2 ↔
        e ∈ acc.2 ∨
          ∃ it ∈ items, itemActive it = true ∧ itemKeyId it ∉ prev ∧
            e = pressEvent it now := by
  induction items with
  | nil => intro acc e; simp
  | cons it t ih =>
    intro acc e
    rw [List.foldl_cons, ih, pianoStep_press_mem]
    constructor
    · rintro ((h | h) | ⟨it', hmem, h⟩)
      · exact Or.inl h
      · exact Or.inr ⟨it, List.mem_cons_self it t, h⟩
      · exact Or.inr ⟨it', List.mem_cons_of_mem it hmem, h⟩
    · rintro (h | ⟨it', hmem, h⟩)
      · exact Or.inl (Or.inl h)
      · rcases List.mem_cons.mp hmem with heq | hmem'
        · exact Or.inl (Or.inr (heq ▸ h))
        · exact Or.inr ⟨it', hmem', h⟩

/-- The Bool predicate recognizing a press event for key `k`. -/
def isPressFor (k : KeyId) (e : PianoKeyEvent) : Bool :=
  e.type == PianoEventType.press && e.keyId == k

/-- The Bool predicate recognizing an item that will push a press for
key `k` against the previous active set `prev`. -/
def pushesPressFor (prev : List KeyId) (k : KeyId) (it : PianoItem) : Bool :=
  itemActive it && itemKeyId it == k && decide (itemKeyId it ∉ prev)

/-- Press-event count after one piano item. -/
theorem pianoStep_press_count (prev : List KeyId) (now : ℚ)
    (acc : List KeyId × List PianoKeyEvent) (it : PianoItem) (k : KeyId) :
    (pianoStep prev now acc it).2.countP (isPressFor k)
      = acc.2.countP (isPressFor k)
        + (if pushesPressFor prev k it then 1 else 0) := by
  by_cases ha : itemActive it = true
  · by_cases hp : itemKeyId it ∈ prev
    · rw [pianoStep_eq_pos prev now acc it ha hp]
      simp [pushesPressFor, hp]
    · rw [pianoStep_eq_new prev now acc it ha hp]
      rw [List.countP_append]
      by_cases hk : itemKeyId it = k
      · rw [hk] at hp
        simp [List.countP_cons, List.countP_nil, isPressFor, pressEvent,
          pushesPressFor, ha, hp, hk]
      · simp [List.countP_cons, List.countP_nil, isPressFor, pressEvent,
          pushesPressFor, ha, hp, hk]
  · rw [pianoStep_eq_idle prev now acc it ha]
    simp [pushesPressFor, ha]

/-- Press-event count after folding piano items. -/
theorem pianoFold_press_count (prev : List KeyId) (now : ℚ)
    (items : List PianoItem) (k : KeyId) :
    ∀ acc : List KeyId × List PianoKeyEvent,
      (items.foldl (pianoStep prev now) acc).2.countP (isPressFor k)
        = acc.2.countP (isPressFor k) + items.countP (pushesPressFor prev k) := by
  induction items with
  | nil => intro acc; simp
  | cons it t ih =>
    intro acc
    rw [List.foldl_cons, ih, pianoStep_press_count, List.countP_cons]
    omega

/-- A list whose image under `f` has no duplicates counts at most one
element satisfying a predicate that pins down the image. -/
theorem countP_le_one_proj {α β : Type} [DecidableEq β] (l : List α)
    (f : α → β) (b : β) (p : α → Bool)
    (hnd : (l.map f).Nodup) (himp : ∀ a, p a = true → f a = b) :
    l.countP p ≤ 1 := by
  induction l with
  | nil => simp
  | cons a t ih =>
    rw [List.map_cons, List.nodup_cons] at hnd
    rw [List.countP_cons]
    by_cases hp : p a = true
    · have hz : t.countP p = 0 := by
        rw [List.countP_eq_zero]
        intro x hx hpx
        apply hnd.1
        have : f a ∈ t.map f := by
          rw [himp a hp, ← himp x hpx]
          exact List.mem_map_of_mem f hx
        exact this
      simp [hp, hz]
    · have hle := ih hnd.2
      have h0 : (if p a then (1 : ℕ) else 0) = 0 := by simp [hp]
      rw [h0]
      omega

/-- Under the producer guarantee that the left slot holds a Left hand and
the right slot a Right hand, the (side, finger) projections of the piano
iteration items are pairwise distinct. -/
theorem pianoItems_proj_nodup (data : TwoHandGestureData)
    (hwfL : ∀ lh, data.leftHand = some lh → lh.handedness = Handedness.Left)
    (hwfR : ∀ rh, data.rightHand = some rh → rh.handedness = Handedness.Right) :
    ((pianoItems data).map (fun it => (it.1, it.2.1))).Nodup := by
  unfold pianoItems handItems
  cases hL : data.leftHand with
  | none =>
    cases hR : data.rightHand with
    | none => simp
    | some rh =>
      simp only []
      rw [hwfR rh hR]
      simp [Handedness.side]
  | some lh =>
    cases hR : data.rightHand with
    | none =>
      simp only []
      rw [hwfL lh hL]
      simp [Handedness.side]
    | some rh =>
      simp only []
      rw [hwfL lh hL, hwfR rh hR]
      simp [Handedness.side]

/-- A pushed press for key `k` forces the item to project to the (hand,
finger) pair of `k`. -/
theorem pushesPressFor_proj (prev : List KeyId) (k : KeyId) (it : PianoItem)
    (h : pushesPressFor prev k it = true) : (it.1, it.2.1) = (k.hand, k.finger) := by
  have hbe : (itemKeyId it == k) = true := by
    unfold pushesPressFor at h
    exact (Bool.and_eq_true_iff.mp (Bool.and_eq_true_iff.mp h).1).2
  have hk : itemKeyId it = k := by simpa using hbe
  rw [← hk]
  rfl

/-- Membership in the new active-key set of a piano process call. -/
theorem pianoProcess_cur_mem (s : PianoState) (data : TwoHandGestureData)
    (now : ℚ) (k : KeyId) :
    k ∈ (pianoProcess s data now).1.activeKeys ↔
      ∃ it ∈ pianoItems data, itemActive it = true ∧ itemKeyId it = k := by
  show k ∈ ((pianoItems data).foldl (pianoStep s.activeKeys now) ([], [])).1 ↔ _
  rw [pianoFold_cur_mem]
  simp

/-- The events of a piano process call are the presses of the item fold
followed by the releases of the vanished keys. -/
theorem pianoProcess_events (s : PianoState) (data : TwoHandGestureData) (now : ℚ) :
    (pianoProcess s data now).2 =
      ((pianoItems data).foldl (pianoStep s.activeKeys now) ([], [])).2 ++
        (s.activeKeys.filter
          (fun x => decide (x ∉ (pianoProcess s data now).1.activeKeys))).map
          (fun x => releaseEvent x now) := rfl

/-- C4: piano press and release events are exactly the transitions of a
(hand, finger, key-index) identity between the previous frame active-key
set and the current frame set. A press fires exactly when the identity
enters the set; a release exactly when it leaves; at most one press is
emitted for an identity per frame (under the producer guarantee that the
left slot holds a Left hand and the right slot a Right hand); and an
identity active in both frames produces no press, so a continuously
active identity fires at most one press until its key index changes. -/
theorem piano_press_release_transitions (s : PianoState)
    (data : TwoHandGestureData) (now : ℚ)
    (hwfL : ∀ lh, data.leftHand = some lh → lh.handedness = Handedness.Left)
    (hwfR : ∀ rh, data.rightHand = some rh → rh.handedness = Handedness.Right)
    (k : KeyId) :
    ((∃ e ∈ (pianoProcess s data now).2,
        e.type = PianoEventType.press ∧ e.keyId = k) ↔
      (k ∈ (pianoProcess s data now).1.activeKeys ∧ k ∉ s.activeKeys)) ∧
    ((∃ e ∈ (pianoProcess s data now).2,
        e.type = PianoEventType.release ∧ e.keyId = k) ↔
      (k ∈ s.activeKeys ∧ k ∉ (pianoProcess s data now).1.activeKeys)) ∧
    ((pianoProcess s data now).2.countP (isPressFor k) ≤ 1) ∧
    (k ∈ s.activeKeys → k ∈ (pianoProcess s data now).1.activeKeys →
      ¬∃ e ∈ (pianoProcess s data now).2,
        e.type = PianoEventType.press ∧ e.keyId = k) := by
  have hpressmem : ∀ e, e ∈ ((pianoItems data).foldl (pianoStep s.activeKeys now) ([], [])).2 ↔
      ∃ it ∈ pianoItems data, itemActive it = true ∧ itemKeyId it ∉ s.activeKeys ∧
        e = pressEvent it now := by
    intro e
    rw [pianoFold_press_mem]
    simp
  have h1 : (∃ e ∈ (pianoProcess s data now).2,
      e.type = PianoEventType.press ∧ e.keyId = k) ↔
      (k ∈ (pianoProcess s data now).1.activeKeys ∧ k ∉ s.activeKeys) := by
    rw [pianoProcess_events]
    constructor
    · rintro ⟨e, he, htype, hkey⟩
      rcases List.mem_append.mp he with he | he
      · obtain ⟨it, hmem, hact, hnp, heq⟩ := (hpressmem e).mp he
        subst heq
        have hkk : itemKeyId it = k := hkey
        refine ⟨(pianoProcess_cur_mem s data now k).mpr ⟨it, hmem, hact, hkk⟩, ?_⟩
        rw [← hkk]
        exact hnp
      · obtain ⟨k', -, heq⟩ := List.mem_map.mp he
        rw [← heq] at htype
        exact absurd htype (by simp [releaseEvent])
    · rintro ⟨hc, hnp⟩
      obtain ⟨it, hmem, hact, hkk⟩ := (pianoProcess_cur_mem s data now k).mp hc
      refine ⟨pressEvent it now,
        List.mem_append.mpr (Or.inl ((hpressmem _).mpr ⟨it, hmem, hact, ?_, rfl⟩)),
        rfl, hkk⟩
      rw [hkk]
      exact hnp
  have h2 : (∃ e ∈ (pianoProcess s data now).2,
      e.type = PianoEventType.release ∧ e.keyId = k) ↔
      (k ∈ s.activeKeys ∧ k ∉ (pianoProcess s data now).1.activeKeys) := by
    rw [pianoProcess_events]
    constructor
    · rintro ⟨e, he, htype, hkey⟩
      rcases List.mem_append.mp he with he | he
      · obtain ⟨it, -, -, -, heq⟩ := (hpressmem e).mp he
        subst heq
        exact absurd htype (by simp [pressEvent])
      · obtain ⟨k', hk', heq⟩ := List.mem_map.mp he
        have hkk : k' = k := by
          rw [← heq] at hkey
          exact hkey
        subst hkk
        have hf := List.mem_filter.mp hk'
        exact ⟨hf.1, by simpa using hf.2⟩
    · rintro ⟨hp, hnc⟩
      exact ⟨releaseEvent k now,
        List.mem_append.mpr (Or.inr (List.mem_map_of_mem _
          (List.mem_filter.mpr ⟨hp, by simpa using hnc⟩))),
        rfl, rfl⟩
  have h3 : (pianoProcess s data now).2.countP (isPressFor k) ≤ 1 := by
    rw [pianoProcess_events, List.countP_append]
    have hrel0 : ((s.activeKeys.filter
        (fun x => decide (x ∉ (pianoProcess s data now).1.activeKeys))).map
        (fun x => releaseEvent x now)).countP (isPressFor k) = 0 := by
      rw [List.countP_eq_zero]
      intro e he
      obtain ⟨k', -, heq⟩ := List.mem_map.mp he
      rw [← heq]
      simp [isPressFor, releaseEvent]
    have hr2 : ((pianoItems data).foldl (pianoStep s.activeKeys now) ([], [])).2.countP
        (isPressFor k) = (pianoItems data).countP (pushesPressFor s.activeKeys k) := by
      rw [pianoFold_press_count]
      simp
    rw [hrel0, hr2, Nat.add_zero]
    exact countP_le_one_proj (pianoItems data) (fun it => (it.1, it.2.1))
      (k.hand, k.finger) (pushesPressFor s.activeKeys k)
      (pianoItems_proj_nodup data hwfL hwfR) (pushesPressFor_proj s.activeKeys k)
  exact ⟨h1, h2, h3, fun hks _ hex => absurd hks (fun _ => (h1.mp hex).2 hks)⟩

/-- A concrete right hand whose index finger is extended and tapping
(velocity.y = 1 > 0.8) at x = 0.5 (key index 6). -/
def c4Hand : HandData := mkHand .Right ⟨true, ⟨0.5, 0.2, 0⟩, ⟨0, 1, 0⟩⟩

/-- A concrete frame holding only that right hand. -/
def c4Data : TwoHandGestureData := ⟨none, some c4Hand, 50⟩

/-- The key identity that frame activates. -/
def c4Key : KeyId := ⟨Side.right, Finger.index, 6⟩

/-- Witness for C4 at a concrete frame, previous state and key identity. -/
theorem piano_press_release_transitions_witness :
    ((∃ e ∈ (pianoProcess ⟨[]⟩ c4Data 50).2,
        e.type = PianoEventType.press ∧ e.keyId = c4Key) ↔
      (c4Key ∈ (pianoProcess ⟨[]⟩ c4Data 50).1.activeKeys ∧
       c4Key ∉ (⟨[]⟩ : PianoState).activeKeys)) ∧
    ((∃ e ∈ (pianoProcess ⟨[]⟩ c4Data 50).2,
        e.type = PianoEventType.release ∧ e.keyId = c4Key) ↔
      (c4Key ∈ (⟨[]⟩ : PianoState).activeKeys ∧
       c4Key ∉ (pianoProcess ⟨[]⟩ c4Data 50).1.activeKeys)) ∧
    ((pianoProcess ⟨[]⟩ c4Data 50).2.countP (isPressFor c4Key) ≤ 1) ∧
    (c4Key ∈ (⟨[]⟩ : PianoState).activeKeys →
     c4Key ∈ (pianoProcess ⟨[]⟩ c4Data 50).1.activeKeys →
      ¬∃ e ∈ (pianoProcess ⟨[]⟩ c4Data 50).2,
        e.type = PianoEventType.press ∧ e.keyId = c4Key) :=
  piano_press_release_transitions ⟨[]⟩ c4Data 50
    (fun _ h => nomatch h)
    (fun rh h => by
      have h' : some c4Hand = some rh := h
      injection h' with h'
      rw [← h']
      rfl)
    c4Key

end Orchestra
